import Mathlib

/-!
Verification of the distill migration convergence engine.

This file shallowly embeds the convergence strategies
(`AlwaysRunMaxStrategy`, `EarlyStoppingWithPatienceStrategy`,
`ThresholdPlusBonusRoundsStrategy`), the graph nodes (`testNode`,
`checkConvergence`, `modifyNode`), the `Judge` batch evaluation and the
modifier prompt builder, and proves the stated properties about them.

Modelling conventions:
* JavaScript numbers that hold success rates and thresholds are modelled
  as rationals; iteration counters as integers (JS subtraction such as
  `maxIterations - iteration` may go negative, so `Nat` would be wrong).
* Class fields become explicit state records; a method becomes a function
  from the state and its arguments to the new state and the return value.
* Thrown exceptions and rejected promises become `Except.error`;
  the unseeded `Array.prototype.reduce` (which throws a `TypeError` on an
  empty array) becomes an `Option` result that is `none` on `[]`.
* Console logging, token/latency/cost bookkeeping (constant zeros in the
  source) and the numeric `toFixed` formatting inside human-readable
  `reason` strings are not modelled; `reason` strings keep their fixed
  prefix text.
-/

namespace Distill

/-- Scores block of `EvaluationResult` (types/agent.ts). -/
structure EvaluationScores where
  correctness : ℚ
  efficiency : ℚ
  robustness : ℚ
  reasoningQuality : ℚ
deriving Repr, DecidableEq

/-- Evaluation from the Judge LLM (types/agent.ts `EvaluationResult`). -/
structure EvaluationResult where
  scores : EvaluationScores
  passed : Bool
  reasoning : String
  failures : List String
  suggestions : List String
deriving Repr, DecidableEq

/-- A test case (types/agent.ts `TestCase`): `input` is flattened to its
`message` field and `expectedOutput` to its optional `response` field. -/
structure TestCase where
  id : String
  description : String
  inputMessage : String
  expectedResponse : Option String
  expectedBehavior : Option String
deriving Repr, DecidableEq

/-- Result of running a single test case (types/agent.ts `TestResult`).
The trace is flattened to the two text fields the modifier prompt reads;
`evaluation` is optional in the source but always present on results
produced by `Judge.evaluateBatch`, which is the only producer, so it is
kept as a plain field here. -/
structure TestResult where
  testCaseId : String
  passed : Bool
  actualOutputResponse : String
  traceInputMessage : String
  traceOutputResponse : String
  evaluation : EvaluationResult
deriving Repr, DecidableEq

/-- One entry of a strategy history (strategies/types.ts `IterationHistory`). -/
structure IterationHistory where
  iteration : ℤ
  successRate : ℚ
  prompt : String
  testResults : List TestResult
deriving Repr, DecidableEq

/-- The slice of the LangGraph `MigrationState` that a strategy call reads
(validator/state.ts). -/
structure CallState where
  iteration : ℤ
  successRate : ℚ
  currentPrompt : String
  testResults : List TestResult
  maxIterations : ℤ
  threshold : ℚ
deriving Repr, DecidableEq

/-- Decision from a convergence strategy (strategies/types.ts). -/
structure ConvergenceDecision where
  shouldContinue : Bool
  reason : String
deriving Repr, DecidableEq

/-- Return shape of `getBestResult` (strategies/types.ts). -/
structure BestResult where
  prompt : String
  successRate : ℚ
  iteration : ℤ
deriving Repr, DecidableEq

/-- The body of the unseeded `reduce` all three strategies use:
`(best, current) => current.successRate > best.successRate ? current : best`,
folded from the left over the rest of the history. -/
def bestScan (best : IterationHistory) : List IterationHistory → IterationHistory
  | [] => best
  | current :: rest =>
    bestScan (if best.successRate < current.successRate then current else best) rest

/-- `history.reduce(...)` without an initial value: throws a `TypeError` on an
empty array (modelled as `none`), otherwise seeds with the first element. -/
def historyBest : List IterationHistory → Option IterationHistory
  | [] => none
  | h :: t => some (bestScan h t)

/-- The entry `shouldContinue` pushes onto `this.history` on every call. -/
def historyEntry (c : CallState) : IterationHistory :=
  ⟨c.iteration, c.successRate, c.currentPrompt, c.testResults⟩

/-- Internal state of `AlwaysRunMaxStrategy`. -/
structure AlwaysRunMaxState where
  history : List IterationHistory
deriving Repr, DecidableEq

namespace AlwaysRunMax

/-- `AlwaysRunMaxStrategy.initialize`. -/
def initState : AlwaysRunMaxState := ⟨[]⟩

/-- `AlwaysRunMaxStrategy.shouldContinue`: push the iteration, then continue
exactly while `state.iteration < state.maxIterations`. -/
def shouldContinue (s : AlwaysRunMaxState) (c : CallState) :
    AlwaysRunMaxState × ConvergenceDecision :=
  let s1 : AlwaysRunMaxState := ⟨s.history ++ [historyEntry c]⟩
  if c.iteration < c.maxIterations then
    (s1, ⟨true, "Running all iterations (" ++ toString c.iteration ++ "/" ++
      toString c.maxIterations ++ ")"⟩)
  else
    (s1, ⟨false, "Completed all " ++ toString c.maxIterations ++ " iterations"⟩)

/-- `AlwaysRunMaxStrategy.getBestResult`: unseeded reduce over the history. -/
def getBestResult (s : AlwaysRunMaxState) : Option BestResult :=
  (historyBest s.history).map (fun best => ⟨best.prompt, best.successRate, best.iteration⟩)

/-- Fold `shouldContinue` over a list of calls from a fresh strategy
(models one migration run from `initialize`), recording each decision. -/
def run (calls : List CallState) : AlwaysRunMaxState × List Bool :=
  calls.foldl
    (fun acc c =>
      let sd := shouldContinue acc.1 c
      (sd.1, acc.2 ++ [sd.2.shouldContinue]))
    (initState, [])

end AlwaysRunMax

/-- Constructor argument of `EarlyStoppingWithPatienceStrategy`
(`minImprovement` optional). -/
structure EarlyStoppingConfigInput where
  patience : ℤ
  minImprovement : Option ℚ
deriving Repr, DecidableEq

/-- `Required<EarlyStoppingConfig>` as stored on the instance. -/
structure EarlyStoppingConfig where
  patience : ℤ
  minImprovement : ℚ
deriving Repr, DecidableEq

/-- Internal state of `EarlyStoppingWithPatienceStrategy`. -/
structure EarlyStoppingState where
  history : List IterationHistory
  bestSuccessRate : ℚ
  patienceCounter : ℤ
deriving Repr, DecidableEq

namespace EarlyStoppingWithPatience

/-- The constructor: `minImprovement: config.minImprovement ?? 0.01`. -/
def mkConfig (input : EarlyStoppingConfigInput) : EarlyStoppingConfig :=
  ⟨input.patience, input.minImprovement.getD (1 / 100)⟩

/-- `EarlyStoppingWithPatienceStrategy.initialize`. -/
def initState (cfg : EarlyStoppingConfig) : EarlyStoppingState :=
  ⟨[], 0, cfg.patience⟩

/-- The state mutation performed by the first half of
`EarlyStoppingWithPatienceStrategy.shouldContinue`: push the iteration,
then reset `bestSuccessRate` and the patience counter when the improvement
over `bestSuccessRate` is at least `minImprovement`, otherwise decrement
the counter. -/
def stepState (cfg : EarlyStoppingConfig) (s : EarlyStoppingState)
    (c : CallState) : EarlyStoppingState :=
  let hist := s.history ++ [historyEntry c]
  let improvement := c.successRate - s.bestSuccessRate
  if cfg.minImprovement ≤ improvement then
    ⟨hist, c.successRate, cfg.patience⟩
  else
    ⟨hist, s.bestSuccessRate, s.patienceCounter - 1⟩

/-- `EarlyStoppingWithPatienceStrategy.shouldContinue`: mutate the state as
in `stepState`, then stop when the counter is `≤ 0` or
`iteration ≥ maxIterations`. -/
def shouldContinue (cfg : EarlyStoppingConfig) (s : EarlyStoppingState)
    (c : CallState) : EarlyStoppingState × ConvergenceDecision :=
  let s1 := stepState cfg s c
  if s1.patienceCounter ≤ 0 then
    (s1, ⟨false, "No improvement for " ++ toString cfg.patience ++ " iterations"⟩)
  else if c.maxIterations ≤ c.iteration then
    (s1, ⟨false, "Reached maxIterations (" ++ toString c.maxIterations ++ ")"⟩)
  else
    (s1, ⟨true, "Patience remaining: " ++ toString s1.patienceCounter ++ "/" ++
      toString cfg.patience⟩)

/-- `EarlyStoppingWithPatienceStrategy.getBestResult`. -/
def getBestResult (s : EarlyStoppingState) : Option BestResult :=
  (historyBest s.history).map (fun best => ⟨best.prompt, best.successRate, best.iteration⟩)

/-- Fold `shouldContinue` over a list of calls from a fresh strategy,
recording each decision (models one migration run from `initialize`). -/
def run (cfg : EarlyStoppingConfig) (calls : List CallState) :
    EarlyStoppingState × List Bool :=
  calls.foldl
    (fun acc c =>
      let sd := shouldContinue cfg acc.1 c
      (sd.1, acc.2 ++ [sd.2.shouldContinue]))
    (initState cfg, [])

end EarlyStoppingWithPatience

/-- Constructor argument of `ThresholdPlusBonusRoundsStrategy`. -/
structure ThresholdPlusBonusConfig where
  bonusRounds : ℤ
deriving Repr, DecidableEq

/-- Internal state of `ThresholdPlusBonusRoundsStrategy`. -/
structure ThresholdPlusBonusState where
  history : List IterationHistory
  thresholdReachedAt : Option ℤ
  bonusRoundsUsed : ℤ
  bonusRoundsAvailable : ℤ
deriving Repr, DecidableEq

namespace ThresholdPlusBonus

/-- `ThresholdPlusBonusRoundsStrategy.initialize`. -/
def initState : ThresholdPlusBonusState := ⟨[], none, 0, 0⟩

/-- The state mutation performed by the first half of
`ThresholdPlusBonusRoundsStrategy.shouldContinue`: push the iteration and,
on the first call where `successRate ≥ threshold`, record the iteration and
grant `min(bonusRounds, maxIterations - iteration)` bonus rounds. -/
def stepState (cfg : ThresholdPlusBonusConfig) (s : ThresholdPlusBonusState)
    (c : CallState) : ThresholdPlusBonusState :=
  let hist := s.history ++ [historyEntry c]
  if s.thresholdReachedAt = none ∧ c.threshold ≤ c.successRate then
    ⟨hist, some c.iteration, s.bonusRoundsUsed,
      min cfg.bonusRounds (c.maxIterations - c.iteration)⟩
  else
    ⟨hist, s.thresholdReachedAt, s.bonusRoundsUsed, s.bonusRoundsAvailable⟩

/-- `ThresholdPlusBonusRoundsStrategy.shouldContinue`: mutate the state as
in `stepState`; once the threshold has been reached, continue exactly while
the number of iterations since then is below the grant; before that,
continue while `iteration < maxIterations`. -/
def shouldContinue (cfg : ThresholdPlusBonusConfig) (s : ThresholdPlusBonusState)
    (c : CallState) : ThresholdPlusBonusState × ConvergenceDecision :=
  let s1 := stepState cfg s c
  match s1.thresholdReachedAt with
  | some t =>
    let iterationsSinceThreshold := c.iteration - t
    if s1.bonusRoundsAvailable ≤ iterationsSinceThreshold then
      (s1, ⟨false, "Completed " ++ toString s1.bonusRoundsAvailable ++
        " bonus rounds after threshold"⟩)
    else
      (s1, ⟨true, "Bonus round " ++ toString (iterationsSinceThreshold + 1) ++ "/" ++
        toString s1.bonusRoundsAvailable⟩)
  | none =>
    if c.maxIterations ≤ c.iteration then
      (s1, ⟨false, "Reached maxIterations (" ++ toString c.maxIterations ++
        ") without hitting threshold"⟩)
    else
      (s1, ⟨true, "Seeking threshold"⟩)

/-- `ThresholdPlusBonusRoundsStrategy.getBestResult`. -/
def getBestResult (s : ThresholdPlusBonusState) : Option BestResult :=
  (historyBest s.history).map (fun best => ⟨best.prompt, best.successRate, best.iteration⟩)

/-- Linking invariant of the bonus strategy under a fixed budget `m`: the
recorded grant never exceeds `m` minus the iteration at which the
threshold was reached. -/
def GrantInv (m : ℤ) (s : ThresholdPlusBonusState) : Prop :=
  ∀ t, s.thresholdReachedAt = some t → s.bonusRoundsAvailable ≤ m - t

/-- Fold `shouldContinue` over a list of calls from a fresh strategy
(models one migration run from `initialize`), recording each decision. -/
def run (cfg : ThresholdPlusBonusConfig) (calls : List CallState) :
    ThresholdPlusBonusState × List Bool :=
  calls.foldl
    (fun acc c =>
      let sd := shouldContinue cfg acc.1 c
      (sd.1, acc.2 ++ [sd.2.shouldContinue]))
    (initState, [])

end ThresholdPlusBonus

/-- A convergence strategy as `checkConvergence` consumes it through the
`ConvergenceStrategy` interface: its internal state (of type `σ`) plus its
two methods. -/
structure StrategyOps (σ : Type) where
  shouldContinue : σ → CallState → σ × ConvergenceDecision
  getBestResult : σ → Option BestResult

/-- `AlwaysRunMaxStrategy` packaged behind the interface. -/
def alwaysRunMaxOps : StrategyOps AlwaysRunMaxState :=
  ⟨AlwaysRunMax.shouldContinue, AlwaysRunMax.getBestResult⟩

/-- `EarlyStoppingWithPatienceStrategy` packaged behind the interface. -/
def earlyStoppingOps (cfg : EarlyStoppingConfig) : StrategyOps EarlyStoppingState :=
  ⟨EarlyStoppingWithPatience.shouldContinue cfg, EarlyStoppingWithPatience.getBestResult⟩

/-- `ThresholdPlusBonusRoundsStrategy` packaged behind the interface. -/
def thresholdPlusBonusOps (cfg : ThresholdPlusBonusConfig) :
    StrategyOps ThresholdPlusBonusState :=
  ⟨ThresholdPlusBonus.shouldContinue cfg, ThresholdPlusBonus.getBestResult⟩

/-- The partial state update returned by `checkConvergence` (nodes.ts): on
stop it fills all four fields from the best historical result, on continue
it only sets `converged := false`. -/
structure ConvergenceUpdate where
  converged : Bool
  finalPrompt : Option String
  successRate : Option ℚ
  iteration : Option ℤ
deriving Repr, DecidableEq

/-- nodes.ts `checkConvergence`: ask the strategy whether to continue; if it
says stop, build the outcome from `strategy.getBestResult` with
`converged = best.successRate >= state.threshold`; otherwise return only
`converged: false`.  The `Except.error` arm models the `TypeError` thrown
by the unseeded reduce when the history is empty. -/
def checkConvergence {σ : Type} (ops : StrategyOps σ) (s : σ) (c : CallState) :
    σ × Except String ConvergenceUpdate :=
  let sd := ops.shouldContinue s c
  if sd.2.shouldContinue then
    (sd.1, Except.ok ⟨false, none, none, none⟩)
  else
    match ops.getBestResult sd.1 with
    | none => (sd.1, Except.error ("TypeError: Reduce of empty array with no initial value"))
    | some best =>
      (sd.1, Except.ok ⟨decide (c.threshold ≤ best.successRate), some best.prompt,
        some best.successRate, some best.iteration⟩)

/-- The slice of the LangGraph `MigrationState` the loop nodes read and
write (validator/state.ts): progress, budget, and the output keys that
`checkConvergence` merges back. -/
structure GraphState where
  iteration : ℤ
  successRate : ℚ
  currentPrompt : String
  testResults : List TestResult
  maxIterations : ℤ
  threshold : ℚ
  converged : Bool
  finalPrompt : Option String
deriving Repr, DecidableEq

/-- Merge a `checkConvergence` update into the graph state: LangGraph
overwrites exactly the returned keys (`converged` is always returned; the
other three only on a stop decision, where they are set to the best
historical values — including `iteration`). -/
def applyUpdate (g : GraphState) (u : ConvergenceUpdate) : GraphState :=
  { g with
    converged := u.converged
    finalPrompt := match u.finalPrompt with | some p => some p | none => g.finalPrompt
    successRate := match u.successRate with | some r => r | none => g.successRate
    iteration := match u.iteration with | some i => i | none => g.iteration }

/-- The call state the strategy reads out of the graph state. -/
def callOf (g : GraphState) : CallState :=
  ⟨g.iteration, g.successRate, g.currentPrompt, g.testResults, g.maxIterations,
    g.threshold⟩

/-- nodes.ts `testNode` as a graph-state update: store the produced
verdicts and success rate and increment the iteration counter. -/
def afterTest (g : GraphState) (t : ℚ × List TestResult) : GraphState :=
  { g with testResults := t.2, successRate := t.1, iteration := g.iteration + 1 }

/-- The compiled migration graph (graph.ts): `test → check`, then `END`
when `state.converged` and `modify → test` otherwise.  `agentRun`
abstracts one `testNode` execution round plus judge batch (the success
rate and verdicts it produces from the current state); `reviser` abstracts
`modifyNode`.  The fuel models the runtime recursion limit: when it runs
out the run aborts with a recursion error instead of returning a result.
On success, returns the number of completed test iterations and the final
state.  Note the exit condition: a stop decision alone does not leave the
loop — the conditional edge tests `state.converged`, which
`checkConvergence` sets to `best.successRate ≥ threshold`, so a
sub-threshold stop decision is routed back into `modify`. -/
def migrationGraphRun {σ : Type} (ops : StrategyOps σ)
    (agentRun : GraphState → ℚ × List TestResult) (reviser : GraphState → String) :
    σ → GraphState → ℕ → Except String (ℕ × GraphState)
  | _, _, 0 => Except.error ("GraphRecursionError")
  | s, g, fuel + 1 =>
    let g1 := afterTest g (agentRun g)
    let cc := checkConvergence ops s (callOf g1)
    match cc.2 with
    | Except.error e => Except.error e
    | Except.ok u =>
      let g2 := applyUpdate g1 u
      if g2.converged then Except.ok (1, g2)
      else
        let g3 : GraphState := { g2 with currentPrompt := reviser g2 }
        match migrationGraphRun ops agentRun reviser cc.1 g3 fuel with
        | Except.error e => Except.error e
        | Except.ok nf => Except.ok (nf.1 + 1, nf.2)

/-- The initial graph state of a run. -/
def initialGraphState (prompt : String) (m : ℤ) (th : ℚ) : GraphState :=
  ⟨0, 0, prompt, [], m, th, false, none⟩

/-- Promise rejection / thrown-exception discriminator. -/
def exOk {ε α : Type} : Except ε α → Bool
  | Except.ok _ => true
  | Except.error _ => false

/-- The execution loop of nodes.ts `testNode`: run the candidate agent over
every test case, collecting `(id, response)` pairs.  The source runs the
cases through `Promise.all` in batches of 5 purely for rate limiting; the
batching affects scheduling only, not the collected outputs map, and a
single rejected execution rejects the whole call, which this sequential
recursion models by propagating the first error. -/
def collectResponses (execute : TestCase → Except String String) :
    List TestCase → Except String (List (String × String))
  | [] => Except.ok []
  | tc :: rest =>
    match execute tc with
    | Except.error e => Except.error e
    | Except.ok response =>
      match collectResponses execute rest with
      | Except.error e => Except.error e
      | Except.ok rs => Except.ok ((tc.id, response) :: rs)

namespace Judge

/-- `Judge.evaluate` (judge/index.ts): throw when the test case has no
expected output; otherwise invoke the judge model on the evaluation prompt
and parse its reply — both steps are modelled by the opaque `judgeCall`
(the prompt text and the JSON parsing internals decide no claim here) —
re-throwing any failure wrapped as a judge-evaluation failure. -/
def evaluate (judgeCall : TestCase → String → Except String EvaluationResult)
    (testCase : TestCase) (actualOutput : String) : Except String EvaluationResult :=
  match testCase.expectedResponse with
  | none => Except.error ("Test case missing expected output")
  | some _gold =>
    match judgeCall testCase actualOutput with
    | Except.error e => Except.error ("Judge evaluation failed: " ++ e)
    | Except.ok evaluation => Except.ok evaluation

/-- The per-case helper inside `Judge.evaluateBatch`: look the actual output
up by case id (throwing when missing), evaluate it, and build the
`TestResult` (its trace stores the case input and the actual output;
token/latency/cost fields are constant zeros in the source and omitted). -/
def processTestCase (judgeCall : TestCase → String → Except String EvaluationResult)
    (actualOutputs : List (String × String)) (testCase : TestCase) :
    Except String TestResult :=
  match actualOutputs.lookup testCase.id with
  | none => Except.error ("Missing actual output for test case " ++ testCase.id)
  | some actualOutput =>
    match evaluate judgeCall testCase actualOutput with
    | Except.error e => Except.error e
    | Except.ok evaluation =>
      Except.ok
        ⟨testCase.id, evaluation.passed, actualOutput, testCase.inputMessage,
          actualOutput, evaluation⟩

/-- `Judge.evaluateBatch`: evaluate every case, in source order.  The source
processes the list through `Promise.all` in batches of 3 concurrent calls
and appends each batch in case order, so the produced list (and the
propagation of the first failure) is that of this sequential recursion. -/
def evaluateBatch (judgeCall : TestCase → String → Except String EvaluationResult)
    (actualOutputs : List (String × String)) :
    List TestCase → Except String (List TestResult)
  | [] => Except.ok []
  | tc :: rest =>
    match processTestCase judgeCall actualOutputs tc with
    | Except.error e => Except.error e
    | Except.ok r =>
      match evaluateBatch judgeCall actualOutputs rest with
      | Except.error e => Except.error e
      | Except.ok rs => Except.ok (r :: rs)

end Judge

/-- The slice of `MigrationState` that `testNode` reads. -/
structure TestNodeState where
  testCases : List TestCase
  currentPrompt : String
  iteration : ℤ
  maxIterations : ℤ
  threshold : ℚ
deriving Repr, DecidableEq

/-- The state update `testNode` returns. -/
structure TestNodeUpdate where
  testResults : List TestResult
  successRate : ℚ
  iteration : ℤ
deriving Repr, DecidableEq

/-- nodes.ts `testNode`: execute all test cases with the current prompt,
evaluate the outputs with the judge, and return the verdicts, the success
rate `passed / total`, and the incremented iteration counter.  `execute`
takes the system prompt and a test case (the source builds a `SingleAgent`
with the current prompt and calls it on `testCase.input`). -/
def testNode (execute : String → TestCase → Except String String)
    (judgeCall : TestCase → String → Except String EvaluationResult)
    (st : TestNodeState) : Except String TestNodeUpdate :=
  match collectResponses (execute st.currentPrompt) st.testCases with
  | Except.error e => Except.error e
  | Except.ok outputs =>
    match Judge.evaluateBatch judgeCall outputs st.testCases with
    | Except.error e => Except.error e
    | Except.ok results =>
      let passed := (results.filter (fun r => r.passed)).length
      Except.ok ⟨results, (passed : ℚ) / (results.length : ℚ), st.iteration + 1⟩

/-- nodes.ts `modifyNode`: the failing set handed to the modifier is exactly
the verdicts with `passed = false`. -/
def modifyNodeFailed (testResults : List TestResult) : List TestResult :=
  testResults.filter (fun r => !r.passed)

/-- JavaScript `String.prototype.includes` for the one substring test the
modifier prompt makes. -/
def includesSub (s pat : String) : Bool := (s.splitOn pat).length != 1

/-- One block of `failurePatterns` inside `buildModifierPrompt`
(prompts/modifier-prompt.ts): the question type classified from the input
length and a substring test, the two output lengths, and the judge issue
and suggestion tags — no verbatim test input or output text. -/
def failurePatternBlock (i : ℕ) (test : TestResult) : String :=
  let inputLength := test.traceInputMessage.length
  let expectedLength := test.traceOutputResponse.length
  let actualLength := test.actualOutputResponse.length
  let questionType :=
    if inputLength < 30 then "simple"
    else if includesSub test.traceInputMessage ("one sentence") then "concise_explanation"
    else if 50 < inputLength then "complex"
    else "general"
  "\nPattern " ++ toString (i + 1) ++ " - " ++ questionType ++ " question:\n" ++
  "Length mismatch: Expected ~" ++ toString expectedLength ++ " chars, got " ++
  toString actualLength ++ " chars\n" ++
  "Issues: " ++ String.intercalate ("; ") test.evaluation.failures ++ "\n" ++
  "General guidance needed: " ++
  String.intercalate ("; ") test.evaluation.suggestions ++ "\n"

/-- prompts/modifier-prompt.ts `buildModifierPrompt`: the full prompt handed
to the reviser model by `Modifier.modify`. -/
def buildModifierPrompt (currentPrompt : String) (failedTests : List TestResult)
    (modelName : String) : String :=
  let failurePatterns :=
    String.intercalate ("\n") (failedTests.enum.map (fun p => failurePatternBlock p.1 p.2))
  "You are an expert at optimizing prompts for cheaper LLMs.\n\n" ++
  "CURRENT SYSTEM PROMPT:\n" ++ currentPrompt ++ "\n\n" ++
  "TARGET MODEL: " ++ modelName ++ "\n\n" ++
  "FAILURE PATTERNS OBSERVED (" ++ toString failedTests.length ++ "):\n" ++
  failurePatterns ++ "\n\n" ++
  "Your task: Generate an IMPROVED system prompt that teaches GENERAL STRATEGIES.\n\n" ++
  "CRITICAL RULES:\n" ++
  "1. DO NOT include specific answers or example responses from the test cases\n" ++
  "2. DO NOT memorize the test inputs - teach general approaches instead\n" ++
  "3. Focus on TRANSFERABLE strategies (e.g., \"match response length to question complexity\")\n" ++
  "4. Add guidelines for handling different TYPES of questions (simple, complex, concise explanations)\n" ++
  "5. Use abstract examples if needed, but NEVER from the actual test cases\n\n" ++
  "The improved prompt should help the model handle NEW questions, not just pass these specific tests.\n\n" ++
  "Respond with ONLY the improved system prompt (no explanation, no markdown, no code blocks)."

/-- The reviser prompt produced by nodes.ts `modifyNode` via
`Modifier.modify`: built from the current prompt, the failing verdicts
only, and the target model name. -/
def modifyNodePrompt (currentPrompt : String) (testResults : List TestResult)
    (targetModelName : String) : String :=
  buildModifierPrompt currentPrompt (modifyNodeFailed testResults) targetModelName

/-- The abstracted view of one failing test that the modifier prompt is
allowed to depend on: the derived question-type label, the two output
lengths, and the judge issue and suggestion tags — not the verbatim input
or output text. -/
structure FailureAbstraction where
  questionType : String
  expectedLength : ℕ
  actualLength : ℕ
  failures : List String
  suggestions : List String
deriving Repr, DecidableEq

/-- Project a test result onto the abstraction `failurePatternBlock` uses. -/
def abstractionOf (test : TestResult) : FailureAbstraction :=
  let inputLength := test.traceInputMessage.length
  ⟨if inputLength < 30 then "simple"
    else if includesSub test.traceInputMessage ("one sentence") then "concise_explanation"
    else if 50 < inputLength then "complex"
    else "general",
    test.traceOutputResponse.length,
    test.actualOutputResponse.length,
    test.evaluation.failures,
    test.evaluation.suggestions⟩

/-- `failurePatternBlock` factored through the abstraction. -/
def patternFromAbstraction (i : ℕ) (a : FailureAbstraction) : String :=
  "\nPattern " ++ toString (i + 1) ++ " - " ++ a.questionType ++ " question:\n" ++
  "Length mismatch: Expected ~" ++ toString a.expectedLength ++ " chars, got " ++
  toString a.actualLength ++ " chars\n" ++
  "Issues: " ++ String.intercalate ("; ") a.failures ++ "\n" ++
  "General guidance needed: " ++ String.intercalate ("; ") a.suggestions ++ "\n"

/-! ### Concrete fixtures for the scenario checks -/

/-- A call state with the given iteration, success rate, prompt, budget and
threshold, and no verdicts attached. -/
def mkCall (i : ℤ) (r : ℚ) (prompt : String) (m : ℤ) (th : ℚ) : CallState :=
  ⟨i, r, prompt, [], m, th⟩

/-- A passing judge evaluation. -/
def evalPass : EvaluationResult :=
  ⟨⟨9, 9, 9, 9⟩, true, "matches the gold standard", [], []⟩

/-- A first test case, with an expected output. -/
def caseOne : TestCase :=
  ⟨"case-1", "first case", "What is 2+2?", some ("4"), none⟩

/-- A second test case, with an expected output. -/
def caseTwo : TestCase :=
  ⟨"case-2", "second case", "What is the capital of France?", some ("Paris"), none⟩

/-- An agent whose execution is rejected on the first case only. -/
def failOnFirstExecute : String → TestCase → Except String String :=
  fun _prompt tc =>
    if tc.id == "case-1" then Except.error ("rate limit") else Except.ok ("a response")

/-- An agent whose execution is rejected on every case. -/
def failAllExecute : String → TestCase → Except String String :=
  fun _prompt _tc => Except.error ("network down")

/-- A judge model call that always parses to a passing evaluation. -/
def passingJudgeCall : TestCase → String → Except String EvaluationResult :=
  fun _tc _out => Except.ok evalPass

/-- The `testNode` input state used by the failure fixtures. -/
def twoCaseState : TestNodeState :=
  ⟨[caseOne, caseTwo], "Answer the question.", 0, 5, 3 / 4⟩

/-- Exhaustive scenario (spec §8): budget 5, threshold 0.75, success rates
0.25, 0.5, 0.75, 1.0, 0.9. -/
def exhaustiveCalls : List CallState :=
  [mkCall 1 (1 / 4) ("p1") 5 (3 / 4), mkCall 2 (1 / 2) ("p2") 5 (3 / 4),
    mkCall 3 (3 / 4) ("p3") 5 (3 / 4), mkCall 4 1 ("p4") 5 (3 / 4),
    mkCall 5 (9 / 10) ("p5") 5 (3 / 4)]

/-- Bonus scenario (spec §8): budget 5, threshold 0.75 first met at
iteration 4, success rates 0.5, 0.6, 0.7, 0.75, 0.8. -/
def bonusCalls : List CallState :=
  [mkCall 1 (1 / 2) ("q1") 5 (3 / 4), mkCall 2 (3 / 5) ("q2") 5 (3 / 4),
    mkCall 3 (7 / 10) ("q3") 5 (3 / 4), mkCall 4 (3 / 4) ("q4") 5 (3 / 4),
    mkCall 5 (4 / 5) ("q5") 5 (3 / 4)]

/-- Patience scenario (spec §8): budget 5, success rates
0.50, 0.75, 0.76, 0.75, 0.74. -/
def patienceCalls : List CallState :=
  [mkCall 1 (1 / 2) ("r1") 5 (3 / 4), mkCall 2 (3 / 4) ("r2") 5 (3 / 4),
    mkCall 3 (19 / 25) ("r3") 5 (3 / 4), mkCall 4 (3 / 4) ("r4") 5 (3 / 4),
    mkCall 5 (37 / 50) ("r5") 5 (3 / 4)]

/-- The patience configuration of the scenario: patience 3,
minImprovement 0.05. -/
def patienceCfg : EarlyStoppingConfig := ⟨3, 1 / 20⟩

/-- First call of the stop-on-a-regression scenario: budget 2,
threshold 0.5, rate 0.9. -/
def regressCallOne : CallState := mkCall 1 (9 / 10) ("good") 2 (1 / 2)

/-- Second call of the stop-on-a-regression scenario: rate 0.3. -/
def regressCallTwo : CallState := mkCall 2 (3 / 10) ("worse") 2 (1 / 2)

/-- An agent whose success rate is 0.5 on every iteration — always below
the 0.75 threshold of the fixtures. -/
def constHalfRate : GraphState → ℚ × List TestResult := fun _ => (1 / 2, [])

/-- A reviser producing a fixed revised prompt. -/
def constReviser : GraphState → String := fun _ => "revised"

/-- The success rates of the exhaustive end-to-end scenario, by iteration
number: 0.25, 0.5, 0.75, 1.0, 0.9. -/
def specRateAt : ℤ → ℚ := fun i =>
  if i = 1 then 1 / 4
  else if i = 2 then 1 / 2
  else if i = 3 then 3 / 4
  else if i = 4 then 1
  else 9 / 10

/-- An agent following the exhaustive end-to-end scenario: `testNode` at
graph state `g` runs iteration `g.iteration + 1`. -/
def specAgentRun : GraphState → ℚ × List TestResult :=
  fun g => (specRateAt (g.iteration + 1), [])

/-- The history 0.5, 0.9, 0.6 from the best-result property of spec §8. -/
def sampleHistory : List IterationHistory :=
  [⟨1, 1 / 2, "h1", []⟩, ⟨2, 9 / 10, "h2", []⟩, ⟨3, 3 / 5, "h3", []⟩]

/-- A failing verdict. -/
def verdictA : TestResult :=
  ⟨"case-1", false, "AAAA", "What is 2+2?", "AAAA",
    ⟨⟨3, 3, 3, 3⟩, false, "too short", ["missing detail"], ["add detail"]⟩⟩

/-- A different failing verdict with the same abstracted failure view as
`verdictA`: same question-type class, same lengths, same tags, but other
input and output text. -/
def verdictB : TestResult :=
  ⟨"case-9", false, "BBBB", "Capital city?", "BBBB",
    ⟨⟨2, 6, 6, 2⟩, false, "off tone", ["missing detail"], ["add detail"]⟩⟩

/-! ### Lemmas about the shared unseeded reduce -/

/-- The fold underlying every `getBestResult` returns the first element of
maximal success rate: the list splits as `pre ++ best :: post` with every
element of `pre` strictly below the result and every element at most it. -/
theorem bestScan_spec (a : IterationHistory) (t : List IterationHistory) :
    ∃ pre post, a :: t = pre ++ bestScan a t :: post ∧
      (∀ x ∈ pre, x.successRate < (bestScan a t).successRate) ∧
      (∀ x ∈ a :: t, x.successRate ≤ (bestScan a t).successRate) := by
  induction t generalizing a with
  | nil =>
    refine ⟨[], [], rfl, by simp, ?_⟩
    intro x hx
    simp only [List.mem_singleton] at hx
    simp [bestScan, hx]
  | cons b t ih =>
    by_cases hab : a.successRate < b.successRate
    · have hs : bestScan a (b :: t) = bestScan b t := by
        simp [bestScan, hab]
      obtain ⟨pre, post, heq, hpre, hmax⟩ := ih b
      refine ⟨a :: pre, post, ?_, ?_, ?_⟩
      · rw [hs, List.cons_append, ← heq]
      · intro x hx
        rcases List.mem_cons.mp hx with hx | hx
        · subst hx
          rw [hs]
          exact lt_of_lt_of_le hab (hmax b (List.mem_cons_self b t))
        · rw [hs]; exact hpre x hx
      · intro x hx
        rcases List.mem_cons.mp hx with hx | hx
        · subst hx
          rw [hs]
          exact le_of_lt (lt_of_lt_of_le hab (hmax b (List.mem_cons_self b t)))
        · rw [hs]; exact hmax x hx
    · have hs : bestScan a (b :: t) = bestScan a t := by
        simp [bestScan, hab]
      obtain ⟨pre, post, heq, hpre, hmax⟩ := ih a
      have hble : b.successRate ≤ a.successRate := le_of_not_lt hab
      cases pre with
      | nil =>
        simp only [List.nil_append] at heq
        have ha' : a = bestScan a t := by
          have := heq
          rw [List.cons.injEq] at this
          exact this.1
        refine ⟨[], b :: t, ?_, by simp, ?_⟩
        · rw [hs, List.nil_append, ← ha']
        · intro x hx
          rcases List.mem_cons.mp hx with hx | hx
          · subst hx; rw [hs, ← ha']
          · rcases List.mem_cons.mp hx with hx | hx
            · subst hx; rw [hs, ← ha']; exact hble
            · rw [hs]; exact hmax x (List.mem_cons_of_mem a hx)
      | cons p pre' =>
        have hpa : p = a ∧ t = pre' ++ bestScan a t :: post := by
          have := heq
          rw [List.cons_append, List.cons.injEq] at this
          exact ⟨this.1.symm, this.2⟩
        refine ⟨a :: b :: pre', post, ?_, ?_, ?_⟩
        · rw [hs, List.cons_append, List.cons_append, ← hpa.2]
        · intro x hx
          have halt : a.successRate < (bestScan a t).successRate := by
            have := hpre p (List.mem_cons_self p pre')
            rw [hpa.1] at this
            exact this
          rcases List.mem_cons.mp hx with hx | hx
          · subst hx; rw [hs]; exact halt
          · rcases List.mem_cons.mp hx with hx | hx
            · subst hx; rw [hs]; exact lt_of_le_of_lt hble halt
            · rw [hs]; exact hpre x (List.mem_cons_of_mem p hx)
        · intro x hx
          rcases List.mem_cons.mp hx with hx | hx
          · rw [hs, hx]; exact hmax a (List.mem_cons_self a t)
          · rcases List.mem_cons.mp hx with hx | hx
            · rw [hs, hx]
              exact le_trans hble (hmax a (List.mem_cons_self a t))
            · rw [hs]; exact hmax x (List.mem_cons_of_mem a hx)

/-- `historyBest` on a non-empty history: the first maximal entry. -/
theorem historyBest_spec (h : List IterationHistory) (hne : h ≠ []) :
    ∃ e pre post, historyBest h = some e ∧ h = pre ++ e :: post ∧
      (∀ x ∈ pre, x.successRate < e.successRate) ∧
      (∀ x ∈ h, x.successRate ≤ e.successRate) := by
  cases h with
  | nil => exact absurd rfl hne
  | cons a t =>
    obtain ⟨pre, post, heq, hpre, hmax⟩ := bestScan_spec a t
    exact ⟨bestScan a t, pre, post, rfl, heq, hpre, hmax⟩

/-- On a history whose iteration numbers increase along the list, the first
maximal entry is the earliest-iteration maximal entry. -/
theorem historyBest_max_earliest (h : List IterationHistory) (hne : h ≠ [])
    (hsorted : h.Pairwise (fun x y => x.iteration < y.iteration)) :
    ∃ e, e ∈ h ∧ historyBest h = some e ∧
      (∀ x ∈ h, x.successRate ≤ e.successRate) ∧
      (∀ x ∈ h, x.successRate = e.successRate → e.iteration ≤ x.iteration) := by
  obtain ⟨e, pre, post, hbest, heq, hpre, hmax⟩ := historyBest_spec h hne
  refine ⟨e, ?_, hbest, hmax, ?_⟩
  · rw [heq]; exact List.mem_append_right pre (List.mem_cons_self e post)
  · intro x hx hrate
    rw [heq] at hx hsorted
    rcases List.mem_append.mp hx with hx | hx
    · exact absurd hrate (ne_of_lt (hpre x hx))
    · rcases List.mem_cons.mp hx with hx | hx
      · subst hx; rfl
      · have hrel := (List.pairwise_append.mp hsorted).2.1
        exact le_of_lt ((List.pairwise_cons.mp hrel).1 x hx)

/-! ### Structure lemmas for the three strategies -/

/-- `AlwaysRunMaxStrategy.shouldContinue` always pushes exactly the current
iteration onto the history. -/
theorem AlwaysRunMax.shouldContinue_fst (s : AlwaysRunMaxState) (c : CallState) :
    (AlwaysRunMax.shouldContinue s c).1 = ⟨s.history ++ [historyEntry c]⟩ := by
  unfold AlwaysRunMax.shouldContinue
  split <;> rfl

/-- The exhaustive decision is `iteration < maxIterations`, whatever the
internal state and the success rate. -/
theorem AlwaysRunMax.decision_iff (s : AlwaysRunMaxState) (c : CallState) :
    (AlwaysRunMax.shouldContinue s c).2.shouldContinue = true ↔
      c.iteration < c.maxIterations := by
  simp only [AlwaysRunMax.shouldContinue]
  split_ifs with h
  · simp [h]
  · simp [h]

/-- The patience strategy updates its state exactly as `stepState` does. -/
theorem EarlyStoppingWithPatience.shouldContinue_eq_stepState (cfg : EarlyStoppingConfig)
    (s : EarlyStoppingState) (c : CallState) :
    (EarlyStoppingWithPatience.shouldContinue cfg s c).1 =
      EarlyStoppingWithPatience.stepState cfg s c := by
  simp only [EarlyStoppingWithPatience.shouldContinue]
  split_ifs <;> rfl

/-- The patience decision: stop exactly when the updated counter is `≤ 0`
or the iteration has reached `maxIterations`. -/
theorem EarlyStoppingWithPatience.decision_stop_iff (cfg : EarlyStoppingConfig)
    (s : EarlyStoppingState) (c : CallState) :
    (EarlyStoppingWithPatience.shouldContinue cfg s c).2.shouldContinue = false ↔
      ((EarlyStoppingWithPatience.stepState cfg s c).patienceCounter ≤ 0 ∨
        c.maxIterations ≤ c.iteration) := by
  simp only [EarlyStoppingWithPatience.shouldContinue]
  split_ifs with h1 h2
  · simp [h1]
  · simp [h2]
  · simp [h1, h2]

/-- The patience `stepState` pushes the iteration and either resets both
tracked values (when the improvement is at least `minImprovement`) or keeps
the best rate and decrements the counter. -/
theorem EarlyStoppingWithPatience.stepState_eq (cfg : EarlyStoppingConfig)
    (s : EarlyStoppingState) (c : CallState) :
    EarlyStoppingWithPatience.stepState cfg s c =
      if cfg.minImprovement ≤ c.successRate - s.bestSuccessRate then
        ⟨s.history ++ [historyEntry c], c.successRate, cfg.patience⟩
      else
        ⟨s.history ++ [historyEntry c], s.bestSuccessRate, s.patienceCounter - 1⟩ := rfl

/-- The bonus strategy updates its state exactly as `stepState` does. -/
theorem ThresholdPlusBonus.shouldContinue_eq_bonusStep (cfg : ThresholdPlusBonusConfig)
    (s : ThresholdPlusBonusState) (c : CallState) :
    (ThresholdPlusBonus.shouldContinue cfg s c).1 =
      ThresholdPlusBonus.stepState cfg s c := by
  cases ht : (ThresholdPlusBonus.stepState cfg s c).thresholdReachedAt with
  | none =>
    simp only [ThresholdPlusBonus.shouldContinue, ht]
    split_ifs <;> rfl
  | some t =>
    simp only [ThresholdPlusBonus.shouldContinue, ht]
    split_ifs <;> rfl

/-- The bonus decision when the threshold was reached at `t` (in the updated
state): continue exactly while `iteration - t` is below the grant. -/
theorem ThresholdPlusBonus.decision_some (cfg : ThresholdPlusBonusConfig)
    (s : ThresholdPlusBonusState) (c : CallState) (t : ℤ)
    (ht : (ThresholdPlusBonus.stepState cfg s c).thresholdReachedAt = some t) :
    (ThresholdPlusBonus.shouldContinue cfg s c).2.shouldContinue = true ↔
      c.iteration - t < (ThresholdPlusBonus.stepState cfg s c).bonusRoundsAvailable := by
  simp only [ThresholdPlusBonus.shouldContinue, ht]
  split
  · next hle => simp only [Bool.false_eq_true, false_iff]; omega
  · next hlt => simp only [true_iff]; omega

/-- The bonus decision while the threshold has never been reached (also not
by the current call): continue exactly while `iteration < maxIterations`. -/
theorem ThresholdPlusBonus.decision_none (cfg : ThresholdPlusBonusConfig)
    (s : ThresholdPlusBonusState) (c : CallState)
    (ht : (ThresholdPlusBonus.stepState cfg s c).thresholdReachedAt = none) :
    (ThresholdPlusBonus.shouldContinue cfg s c).2.shouldContinue = true ↔
      c.iteration < c.maxIterations := by
  simp only [ThresholdPlusBonus.shouldContinue, ht]
  split
  · next hle => simp only [Bool.false_eq_true, false_iff]; omega
  · next hlt => simp only [true_iff]; omega

/-- Explicit form of the bonus `stepState`. -/
theorem ThresholdPlusBonus.bonusStep_eq (cfg : ThresholdPlusBonusConfig)
    (s : ThresholdPlusBonusState) (c : CallState) :
    ThresholdPlusBonus.stepState cfg s c =
      if s.thresholdReachedAt = none ∧ c.threshold ≤ c.successRate then
        ⟨s.history ++ [historyEntry c], some c.iteration, s.bonusRoundsUsed,
          min cfg.bonusRounds (c.maxIterations - c.iteration)⟩
      else
        ⟨s.history ++ [historyEntry c], s.thresholdReachedAt, s.bonusRoundsUsed,
          s.bonusRoundsAvailable⟩ := rfl

/-- A fresh bonus strategy satisfies the linking invariant. -/
theorem ThresholdPlusBonus.grantInv_initState (m : ℤ) :
    ThresholdPlusBonus.GrantInv m ThresholdPlusBonus.initState := by
  intro t ht
  simp [ThresholdPlusBonus.initState] at ht

/-- Any call with budget `m` preserves the linking invariant. -/
theorem ThresholdPlusBonus.grantInv_step (cfg : ThresholdPlusBonusConfig)
    {m : ℤ} {s : ThresholdPlusBonusState} (c : CallState)
    (hs : ThresholdPlusBonus.GrantInv m s) (hm : c.maxIterations = m) :
    ThresholdPlusBonus.GrantInv m (ThresholdPlusBonus.shouldContinue cfg s c).1 := by
  rw [ThresholdPlusBonus.shouldContinue_eq_bonusStep, ThresholdPlusBonus.bonusStep_eq]
  split
  · intro t ht
    simp only at ht
    rw [Option.some.injEq] at ht
    subst ht
    simp only [hm]
    exact min_le_right cfg.bonusRounds (m - c.iteration)
  · exact fun t ht => hs t ht

/-- Every state reachable from `initialize` by calls under budget `m`
satisfies the linking invariant. -/
theorem ThresholdPlusBonus.grantInv_run (cfg : ThresholdPlusBonusConfig)
    (calls : List CallState) (m : ℤ) (hm : ∀ c ∈ calls, c.maxIterations = m) :
    ThresholdPlusBonus.GrantInv m (ThresholdPlusBonus.run cfg calls).1 := by
  suffices hgen : ∀ acc : ThresholdPlusBonusState × List Bool,
      ThresholdPlusBonus.GrantInv m acc.1 →
      ThresholdPlusBonus.GrantInv m
        (calls.foldl (fun acc c =>
          let sd := ThresholdPlusBonus.shouldContinue cfg acc.1 c
          (sd.1, acc.2 ++ [sd.2.shouldContinue])) acc).1 by
    exact hgen (ThresholdPlusBonus.initState, []) (ThresholdPlusBonus.grantInv_initState m)
  induction calls with
  | nil => intro acc hacc; exact hacc
  | cons c rest ih =>
    intro acc hacc
    simp only [List.foldl_cons]
    exact ih (fun c' hc' => hm c' (List.mem_cons_of_mem c hc'))
      _ (ThresholdPlusBonus.grantInv_step cfg c hacc (hm c (List.mem_cons_self c rest)))

/-- Under the linking invariant, a call whose iteration has reached the
budget is always answered with a stop decision. -/
theorem ThresholdPlusBonus.stop_of_grantInv (cfg : ThresholdPlusBonusConfig)
    {s : ThresholdPlusBonusState} (c : CallState)
    (hs : ThresholdPlusBonus.GrantInv c.maxIterations s)
    (hit : c.maxIterations ≤ c.iteration) :
    (ThresholdPlusBonus.shouldContinue cfg s c).2.shouldContinue = false := by
  cases ht : (ThresholdPlusBonus.stepState cfg s c).thresholdReachedAt with
  | none =>
    have := ThresholdPlusBonus.decision_none cfg s c ht
    rw [Bool.eq_false_iff]
    intro hc
    have := this.mp hc
    omega
  | some t =>
    have hiff := ThresholdPlusBonus.decision_some cfg s c t ht
    have havail : (ThresholdPlusBonus.stepState cfg s c).bonusRoundsAvailable ≤
        c.maxIterations - t := by
      rw [ThresholdPlusBonus.bonusStep_eq] at ht ⊢
      by_cases hcond : s.thresholdReachedAt = none ∧ c.threshold ≤ c.successRate
      · rw [if_pos hcond] at ht ⊢
        simp only [Option.some.injEq] at ht
        subst ht
        exact min_le_right _ _
      · rw [if_neg hcond] at ht ⊢
        exact hs t ht
    rw [Bool.eq_false_iff]
    intro hc
    have := hiff.mp hc
    omega

/-! ### Error propagation through `testNode` -/

/-- One rejected case execution rejects the whole collection step. -/
theorem collectResponses_error_of_mem (execute : TestCase → Except String String)
    (cases : List TestCase) (tc : TestCase) (e : String)
    (hmem : tc ∈ cases) (hfail : execute tc = Except.error e) :
    ∃ e', collectResponses execute cases = Except.error e' := by
  induction cases with
  | nil => cases hmem
  | cons hd rest ih =>
    cases hhd : execute hd with
    | error e' => exact ⟨e', by simp [collectResponses, hhd]⟩
    | ok r =>
      rcases List.mem_cons.mp hmem with hmem | hmem
      · rw [← hmem] at hhd
        rw [hfail] at hhd
        cases hhd
      · obtain ⟨e', he'⟩ := ih hmem
        exact ⟨e', by simp [collectResponses, hhd, he']⟩

/-- A successful collection step means every case executed successfully. -/
theorem collectResponses_ok_forall (execute : TestCase → Except String String)
    (cases : List TestCase) (rs : List (String × String))
    (hok : collectResponses execute cases = Except.ok rs) :
    ∀ tc ∈ cases, ∃ r, execute tc = Except.ok r := by
  induction cases generalizing rs with
  | nil => intro tc htc; cases htc
  | cons hd rest ih =>
    intro tc htc
    cases hhd : execute hd with
    | error e => simp [collectResponses, hhd] at hok
    | ok r =>
      cases hrest : collectResponses execute rest with
      | error e => simp [collectResponses, hhd, hrest] at hok
      | ok rs' =>
        rcases List.mem_cons.mp htc with htc | htc
        · exact ⟨r, htc ▸ hhd⟩
        · exact ih rs' hrest tc htc

/-- A successful collection step returns one `(id, response)` pair per case,
in case order. -/
theorem collectResponses_ok_ids (execute : TestCase → Except String String)
    (cases : List TestCase) (rs : List (String × String))
    (hok : collectResponses execute cases = Except.ok rs) :
    rs.map Prod.fst = cases.map TestCase.id := by
  induction cases generalizing rs with
  | nil =>
    simp only [collectResponses] at hok
    cases hok
    rfl
  | cons hd rest ih =>
    cases hhd : execute hd with
    | error e => simp [collectResponses, hhd] at hok
    | ok r =>
      cases hrest : collectResponses execute rest with
      | error e => simp [collectResponses, hhd, hrest] at hok
      | ok rs' =>
        simp only [collectResponses, hhd, hrest] at hok
        cases hok
        simp [ih rs' hrest]

/-- One failing per-case evaluation rejects the whole judge batch. -/
theorem evaluateBatch_error_of_mem
    (judgeCall : TestCase → String → Except String EvaluationResult)
    (actualOutputs : List (String × String)) (cases : List TestCase)
    (tc : TestCase) (e : String) (hmem : tc ∈ cases)
    (hfail : Judge.processTestCase judgeCall actualOutputs tc = Except.error e) :
    ∃ e', Judge.evaluateBatch judgeCall actualOutputs cases = Except.error e' := by
  induction cases with
  | nil => cases hmem
  | cons hd rest ih =>
    cases hhd : Judge.processTestCase judgeCall actualOutputs hd with
    | error e' => exact ⟨e', by simp [Judge.evaluateBatch, hhd]⟩
    | ok r =>
      rcases List.mem_cons.mp hmem with hmem | hmem
      · rw [← hmem] at hhd
        rw [hfail] at hhd
        cases hhd
      · obtain ⟨e', he'⟩ := ih hmem
        exact ⟨e', by simp [Judge.evaluateBatch, hhd, he']⟩

/-- A successful judge batch contains a looked-up output and a successful
evaluation for every case. -/
theorem evaluateBatch_ok_forall
    (judgeCall : TestCase → String → Except String EvaluationResult)
    (actualOutputs : List (String × String)) (cases : List TestCase)
    (res : List TestResult)
    (hok : Judge.evaluateBatch judgeCall actualOutputs cases = Except.ok res) :
    ∀ tc ∈ cases, ∃ out evaluation, actualOutputs.lookup tc.id = some out ∧
      Judge.evaluate judgeCall tc out = Except.ok evaluation := by
  induction cases generalizing res with
  | nil => intro tc htc; cases htc
  | cons hd rest ih =>
    intro tc htc
    cases hhd : Judge.processTestCase judgeCall actualOutputs hd with
    | error e => simp [Judge.evaluateBatch, hhd] at hok
    | ok r =>
      cases hrest : Judge.evaluateBatch judgeCall actualOutputs rest with
      | error e => simp [Judge.evaluateBatch, hhd, hrest] at hok
      | ok rs' =>
        rcases List.mem_cons.mp htc with htc | htc
        · subst htc
          cases hlook : actualOutputs.lookup tc.id with
          | none => simp [Judge.processTestCase, hlook] at hhd
          | some out =>
            cases heval : Judge.evaluate judgeCall tc out with
            | error e => simp [Judge.processTestCase, hlook, heval] at hhd
            | ok evaluation => exact ⟨out, evaluation, rfl, heval⟩
        · exact ih rs' hrest tc htc

/-- `Judge.evaluate` wraps any judge-model or parsing failure. -/
theorem evaluate_wraps_failure
    (judgeCall : TestCase → String → Except String EvaluationResult)
    (tc : TestCase) (out gold e : String)
    (hgold : tc.expectedResponse = some gold)
    (hfail : judgeCall tc out = Except.error e) :
    Judge.evaluate judgeCall tc out =
      Except.error ("Judge evaluation failed: " ++ e) := by
  unfold Judge.evaluate
  rw [hgold, hfail]

/-! ### The modifier prompt factors through the abstraction -/

/-- Each failure-pattern block reads its test only through `abstractionOf`. -/
theorem failurePatternBlock_eq (i : ℕ) (test : TestResult) :
    failurePatternBlock i test = patternFromAbstraction i (abstractionOf test) := rfl

/-- Numbered failure-pattern blocks agree on lists with equal abstractions. -/
theorem enumFrom_block_congr (ts1 ts2 : List TestResult)
    (h : ts1.map abstractionOf = ts2.map abstractionOf) (n : ℕ) :
    (List.enumFrom n ts1).map (fun p => failurePatternBlock p.1 p.2) =
      (List.enumFrom n ts2).map (fun p => failurePatternBlock p.1 p.2) := by
  induction ts1 generalizing ts2 n with
  | nil =>
    cases ts2 with
    | nil => rfl
    | cons b t2 => cases h
  | cons a t1 ih =>
    cases ts2 with
    | nil => cases h
    | cons b t2 =>
      simp only [List.map_cons, List.cons.injEq] at h
      simp only [List.enumFrom_cons, List.map_cons, List.cons.injEq]
      constructor
      · rw [failurePatternBlock_eq, failurePatternBlock_eq, h.1]
      · exact ih t2 h.2 (n + 1)

/-- `checkConvergence` on a stop decision, when the strategy produces a
best result: the returned update is built from that best result, with
`converged = (best.successRate ≥ threshold)`. -/
theorem checkConvergence_stop {σ : Type} (ops : StrategyOps σ) (s : σ) (c : CallState)
    (hstop : (ops.shouldContinue s c).2.shouldContinue = false) (b : BestResult)
    (hb : ops.getBestResult (ops.shouldContinue s c).1 = some b) :
    checkConvergence ops s c =
      ((ops.shouldContinue s c).1,
        Except.ok ⟨decide (c.threshold ≤ b.successRate), some b.prompt,
          some b.successRate, some b.iteration⟩) := by
  simp only [checkConvergence, hstop, Bool.false_eq_true, if_false, hb]

/-- `checkConvergence` on a continue decision returns only
`converged: false`. -/
theorem checkConvergence_continue {σ : Type} (ops : StrategyOps σ) (s : σ)
    (c : CallState) (hcont : (ops.shouldContinue s c).2.shouldContinue = true) :
    checkConvergence ops s c =
      ((ops.shouldContinue s c).1, Except.ok ⟨false, none, none, none⟩) := by
  simp only [checkConvergence, hcont, if_true]

/-- With the exhaustive strategy, a call whose success rate is 0.5 against
threshold 0.75, on a history of 0.5-rate entries, always yields a
`converged: false` update: either the strategy continues, or it stops and
the best recorded rate 0.5 misses the threshold. -/
theorem checkConvergence_half_not_converged (s : AlwaysRunMaxState) (c : CallState)
    (hrate : c.successRate = 1 / 2) (hth : c.threshold = 3 / 4)
    (hs : ∀ x ∈ s.history, x.successRate = 1 / 2) :
    ∃ u : ConvergenceUpdate,
      checkConvergence alwaysRunMaxOps s c =
        ((AlwaysRunMax.shouldContinue s c).1, Except.ok u) ∧ u.converged = false := by
  have hinv : ∀ x ∈ (AlwaysRunMax.shouldContinue s c).1.history,
      x.successRate = 1 / 2 := by
    rw [AlwaysRunMax.shouldContinue_fst]
    intro x hx
    rcases List.mem_append.mp hx with hx | hx
    · exact hs x hx
    · rw [List.mem_singleton] at hx
      subst hx
      exact hrate
  by_cases hdec : (AlwaysRunMax.shouldContinue s c).2.shouldContinue = true
  · exact ⟨⟨false, none, none, none⟩, checkConvergence_continue alwaysRunMaxOps s c hdec,
      rfl⟩
  · rw [Bool.not_eq_true] at hdec
    have hne : (AlwaysRunMax.shouldContinue s c).1.history ≠ [] := by
      rw [AlwaysRunMax.shouldContinue_fst]
      simp
    obtain ⟨e, pre, post, hbest, heq, hpre, hmax⟩ := historyBest_spec _ hne
    have hemem : e ∈ (AlwaysRunMax.shouldContinue s c).1.history := by
      rw [heq]
      exact List.mem_append_right pre (List.mem_cons_self e post)
    have herate : e.successRate = 1 / 2 := hinv e hemem
    have hb : alwaysRunMaxOps.getBestResult (alwaysRunMaxOps.shouldContinue s c).1 =
        some ⟨e.prompt, e.successRate, e.iteration⟩ := by
      simp [alwaysRunMaxOps, AlwaysRunMax.getBestResult, hbest]
    refine ⟨⟨decide (c.threshold ≤ e.successRate), some e.prompt, some e.successRate,
      some e.iteration⟩,
      checkConvergence_stop alwaysRunMaxOps s c hdec
        ⟨e.prompt, e.successRate, e.iteration⟩ hb, ?_⟩
    rw [herate, hth]
    norm_num

/-- Under the exhaustive strategy with a constant sub-threshold success
rate, the graph never reaches `converged = true`: every unit of the
recursion limit is consumed and the run aborts with the recursion error,
whatever the iteration counter or budget. -/
theorem migrationGraphRun_stuck_below_threshold :
    ∀ (fuel : ℕ) (s : AlwaysRunMaxState) (g : GraphState),
      g.threshold = 3 / 4 → (∀ x ∈ s.history, x.successRate = 1 / 2) →
      migrationGraphRun alwaysRunMaxOps constHalfRate constReviser s g fuel =
        Except.error ("GraphRecursionError") := by
  intro fuel
  induction fuel with
  | zero => intro s g hth hs; rfl
  | succ fuel ih =>
    intro s g hth hs
    obtain ⟨u, hcc, hu⟩ := checkConvergence_half_not_converged s
      (callOf (afterTest g (constHalfRate g))) rfl hth hs
    have hinv : ∀ x ∈ (AlwaysRunMax.shouldContinue s
        (callOf (afterTest g (constHalfRate g)))).1.history,
        x.successRate = 1 / 2 := by
      rw [AlwaysRunMax.shouldContinue_fst]
      intro x hx
      rcases List.mem_append.mp hx with hx | hx
      · exact hs x hx
      · rw [List.mem_singleton] at hx
        subst hx
        rfl
    simp only [migrationGraphRun, hcc]
    have hg2 : (applyUpdate (afterTest g (constHalfRate g)) u).converged = false := hu
    rw [if_neg (by rw [hg2]; exact Bool.false_ne_true)]
    rw [ih (AlwaysRunMax.shouldContinue s (callOf (afterTest g (constHalfRate g)))).1
      { applyUpdate (afterTest g (constHalfRate g)) u with
        currentPrompt := constReviser (applyUpdate (afterTest g (constHalfRate g)) u) }
      hth hinv]

/-! ### Claims -/

/-- C1: For each of the three convergence policies — exhaustive
(`AlwaysRunMaxStrategy`), patience (`EarlyStoppingWithPatienceStrategy`),
and threshold-plus-bonus (`ThresholdPlusBonusRoundsStrategy`, on any state
reachable from `initialize` by calls under the same budget) — a
`shouldContinue` call whose iteration is at least `maxIterations`
(`maxIterations ≥ 1`, any success-rate history) returns a decision with
`shouldContinue = false`. -/
theorem C1_budget_invariant (c : CallState) (_hmax : 1 ≤ c.maxIterations)
    (hit : c.maxIterations ≤ c.iteration) :
    (∀ s : AlwaysRunMaxState,
      (AlwaysRunMax.shouldContinue s c).2.shouldContinue = false) ∧
    (∀ (cfg : EarlyStoppingConfig) (s : EarlyStoppingState),
      (EarlyStoppingWithPatience.shouldContinue cfg s c).2.shouldContinue = false) ∧
    (∀ (cfg : ThresholdPlusBonusConfig) (calls : List CallState),
      (∀ c' ∈ calls, c'.maxIterations = c.maxIterations) →
      (ThresholdPlusBonus.shouldContinue cfg
        (ThresholdPlusBonus.run cfg calls).1 c).2.shouldContinue = false) := by
  refine ⟨?_, ?_, ?_⟩
  · intro s
    rw [Bool.eq_false_iff]
    intro hc
    have := (AlwaysRunMax.decision_iff s c).mp hc
    omega
  · intro cfg s
    rw [EarlyStoppingWithPatience.decision_stop_iff]
    exact Or.inr hit
  · intro cfg calls hcalls
    exact ThresholdPlusBonus.stop_of_grantInv cfg c
      (ThresholdPlusBonus.grantInv_run cfg calls c.maxIterations hcalls) hit

/-- C2: On every non-empty history whose iteration numbers increase along
the list, `getBestResult` of each of the three policies returns the entry
of maximal success rate, and among ties the one with the earliest
iteration. -/
theorem C2_best_result_max_earliest (h : List IterationHistory) (hne : h ≠ [])
    (hsorted : h.Pairwise (fun x y => x.iteration < y.iteration)) :
    ∃ e ∈ h,
      (∀ s : AlwaysRunMaxState, s.history = h →
        AlwaysRunMax.getBestResult s = some ⟨e.prompt, e.successRate, e.iteration⟩) ∧
      (∀ s : EarlyStoppingState, s.history = h →
        EarlyStoppingWithPatience.getBestResult s =
          some ⟨e.prompt, e.successRate, e.iteration⟩) ∧
      (∀ s : ThresholdPlusBonusState, s.history = h →
        ThresholdPlusBonus.getBestResult s =
          some ⟨e.prompt, e.successRate, e.iteration⟩) ∧
      (∀ x ∈ h, x.successRate ≤ e.successRate) ∧
      (∀ x ∈ h, x.successRate = e.successRate → e.iteration ≤ x.iteration) := by
  obtain ⟨e, hmem, hbest, hmax, htie⟩ := historyBest_max_earliest h hne hsorted
  refine ⟨e, hmem, ?_, ?_, ?_, hmax, htie⟩
  · intro s hs
    simp [AlwaysRunMax.getBestResult, hs, hbest]
  · intro s hs
    simp [EarlyStoppingWithPatience.getBestResult, hs, hbest]
  · intro s hs
    simp [ThresholdPlusBonus.getBestResult, hs, hbest]

/-- C3: In the threshold-plus-bonus policy, the call that first observes
`successRate ≥ threshold` at iteration `k` grants exactly
`min(requestedBonusRounds, maxIterations - k)` bonus rounds and continues
exactly when that grant is positive; afterwards `shouldContinue` continues
exactly while `iteration - k` is below the grant; in the spec scenario
(`bonusRounds = 2`, `maxIterations = 5`, threshold 0.75 first met at
iteration 4) the grant is 1 and the loop stops at iteration 5. -/
theorem C3_bonus_grant_and_cap :
    (∀ (cfg : ThresholdPlusBonusConfig) (s : ThresholdPlusBonusState) (c : CallState),
      s.thresholdReachedAt = none → c.threshold ≤ c.successRate →
      (ThresholdPlusBonus.shouldContinue cfg s c).1.thresholdReachedAt =
          some c.iteration ∧
        (ThresholdPlusBonus.shouldContinue cfg s c).1.bonusRoundsAvailable =
          min cfg.bonusRounds (c.maxIterations - c.iteration) ∧
        ((ThresholdPlusBonus.shouldContinue cfg s c).2.shouldContinue = true ↔
          0 < min cfg.bonusRounds (c.maxIterations - c.iteration))) ∧
    (∀ (cfg : ThresholdPlusBonusConfig) (s : ThresholdPlusBonusState)
      (c : CallState) (k : ℤ), s.thresholdReachedAt = some k →
      ((ThresholdPlusBonus.shouldContinue cfg s c).2.shouldContinue = true ↔
        c.iteration - k < s.bonusRoundsAvailable)) ∧
    ((ThresholdPlusBonus.run ⟨2⟩ (bonusCalls.take 4)).1.thresholdReachedAt = some 4 ∧
      (ThresholdPlusBonus.run ⟨2⟩ (bonusCalls.take 4)).1.bonusRoundsAvailable = 1 ∧
      (ThresholdPlusBonus.run ⟨2⟩ bonusCalls).2 = [true, true, true, true, false]) := by
  refine ⟨?_, ?_, by
    norm_num [ThresholdPlusBonus.run, ThresholdPlusBonus.shouldContinue,
      ThresholdPlusBonus.stepState, ThresholdPlusBonus.initState, bonusCalls, mkCall,
      historyEntry, List.foldl, Option.some_ne_none, reduceCtorEq]⟩
  · intro cfg s c hnone hrate
    have hstep : ThresholdPlusBonus.stepState cfg s c =
        ⟨s.history ++ [historyEntry c], some c.iteration, s.bonusRoundsUsed,
          min cfg.bonusRounds (c.maxIterations - c.iteration)⟩ := by
      rw [ThresholdPlusBonus.bonusStep_eq, if_pos ⟨hnone, hrate⟩]
    refine ⟨?_, ?_, ?_⟩
    · rw [ThresholdPlusBonus.shouldContinue_eq_bonusStep, hstep]
    · rw [ThresholdPlusBonus.shouldContinue_eq_bonusStep, hstep]
    · have hsome : (ThresholdPlusBonus.stepState cfg s c).thresholdReachedAt =
          some c.iteration := by rw [hstep]
      rw [ThresholdPlusBonus.decision_some cfg s c c.iteration hsome, hstep]
      dsimp only
      omega
  · intro cfg s c k hk
    have hcond : ¬(s.thresholdReachedAt = none ∧ c.threshold ≤ c.successRate) := by
      intro hcontra
      rw [hk] at hcontra
      cases hcontra.1
    have hstep : ThresholdPlusBonus.stepState cfg s c =
        ⟨s.history ++ [historyEntry c], s.thresholdReachedAt, s.bonusRoundsUsed,
          s.bonusRoundsAvailable⟩ := by
      rw [ThresholdPlusBonus.bonusStep_eq, if_neg hcond]
    have hsome : (ThresholdPlusBonus.stepState cfg s c).thresholdReachedAt = some k := by
      rw [hstep]; exact hk
    rw [ThresholdPlusBonus.decision_some cfg s c k hsome, hstep]

/-- C4: In the patience policy, each `shouldContinue` call resets the
counter to the configured patience and updates the tracked best rate
exactly when `successRate - bestSoFar ≥ minImprovement` (which defaults to
0.01), otherwise decrements the counter; the decision is stop exactly when
the updated counter is `≤ 0` or `iteration ≥ maxIterations`; and in the
spec scenario (patience 3, minImprovement 0.05, rates 0.50, 0.75, 0.76,
0.75, 0.74, budget 5) the run continues through iterations 1–4, stops
after iteration 5, and reports iteration 3 with rate 0.76 as best. -/
theorem C4_patience_semantics :
    (∀ p : ℤ, (EarlyStoppingWithPatience.mkConfig ⟨p, none⟩).minImprovement = 1 / 100) ∧
    (∀ (cfg : EarlyStoppingConfig) (s : EarlyStoppingState) (c : CallState),
      (cfg.minImprovement ≤ c.successRate - s.bestSuccessRate →
        (EarlyStoppingWithPatience.shouldContinue cfg s c).1 =
          ⟨s.history ++ [historyEntry c], c.successRate, cfg.patience⟩) ∧
      (¬cfg.minImprovement ≤ c.successRate - s.bestSuccessRate →
        (EarlyStoppingWithPatience.shouldContinue cfg s c).1 =
          ⟨s.history ++ [historyEntry c], s.bestSuccessRate, s.patienceCounter - 1⟩)) ∧
    (∀ (cfg : EarlyStoppingConfig) (s : EarlyStoppingState) (c : CallState),
      (EarlyStoppingWithPatience.shouldContinue cfg s c).2.shouldContinue = false ↔
        ((EarlyStoppingWithPatience.shouldContinue cfg s c).1.patienceCounter ≤ 0 ∨
          c.maxIterations ≤ c.iteration)) ∧
    ((EarlyStoppingWithPatience.run patienceCfg patienceCalls).2 =
        [true, true, true, true, false] ∧
      EarlyStoppingWithPatience.getBestResult
          (EarlyStoppingWithPatience.run patienceCfg patienceCalls).1 =
        some ⟨"r3", 19 / 25, 3⟩) := by
  refine ⟨fun p => rfl, ?_, ?_, by
    norm_num [EarlyStoppingWithPatience.run, EarlyStoppingWithPatience.shouldContinue,
      EarlyStoppingWithPatience.stepState, EarlyStoppingWithPatience.initState,
      EarlyStoppingWithPatience.getBestResult, patienceCfg, patienceCalls, mkCall,
      historyEntry, List.foldl, historyBest, bestScan]⟩
  · intro cfg s c
    constructor
    · intro himp
      rw [EarlyStoppingWithPatience.shouldContinue_eq_stepState,
        EarlyStoppingWithPatience.stepState_eq, if_pos himp]
    · intro himp
      rw [EarlyStoppingWithPatience.shouldContinue_eq_stepState,
        EarlyStoppingWithPatience.stepState_eq, if_neg himp]
  · intro cfg s c
    rw [EarlyStoppingWithPatience.decision_stop_iff,
      EarlyStoppingWithPatience.shouldContinue_eq_stepState]

/-- C5 counterexample: with budget `maxIterations = 2`, threshold 0.75 and
a constant success rate of 0.5, the loop under the exhaustive policy does
not run exactly `maxIterations` iterations and return: the stop decision
at iteration 2 is not converged (best 0.5 < 0.75), so the graph routes it
back into `modify` and the run aborts on the recursion limit instead of
producing a result. -/
theorem C5_counterexample :
    migrationGraphRun alwaysRunMaxOps constHalfRate constReviser
      AlwaysRunMax.initState (initialGraphState ("Answer the question.") 2 (3 / 4)) 5 =
      Except.error ("GraphRecursionError") ∧
    ∀ (n : ℕ) (gfin : GraphState),
      migrationGraphRun alwaysRunMaxOps constHalfRate constReviser
        AlwaysRunMax.initState (initialGraphState ("Answer the question.") 2 (3 / 4)) 5
        ≠ Except.ok (n, gfin) := by
  have herr := migrationGraphRun_stuck_below_threshold 5 AlwaysRunMax.initState
    (initialGraphState ("Answer the question.") 2 (3 / 4)) rfl
    (by intro x hx; simp [AlwaysRunMax.initState] at hx)
  refine ⟨herr, ?_⟩
  intro n gfin h
  rw [herr] at h
  exact Except.noConfusion h

set_option maxRecDepth 8000 in
/-- C5 (amended): the exhaustive policy's `shouldContinue` is true exactly
while `iteration < maxIterations`, whatever the success rate (even 1.0),
and the reported best may be an earlier iteration than the last; the
graph, however, leaves the loop only when `checkConvergence` reports
`converged = true` (best recorded rate at least the threshold at a stop
decision), not on the stop decision itself: in the end-to-end scenario,
whose best rate 1.0 meets the 0.75 threshold, the run performs exactly
`maxIterations = 5` test iterations and exits reporting iteration 4 with
rate 1.0, while under a constant sub-threshold rate the run never exits,
aborting on the recursion limit however large it is. -/
theorem C5_exhaustive_budget :
    (∀ (s : AlwaysRunMaxState) (c : CallState),
      (AlwaysRunMax.shouldContinue s c).2.shouldContinue = true ↔
        c.iteration < c.maxIterations) ∧
    ((AlwaysRunMax.run exhaustiveCalls).2 = [true, true, true, true, false] ∧
      AlwaysRunMax.getBestResult (AlwaysRunMax.run exhaustiveCalls).1 =
        some ⟨"p4", 1, 4⟩) ∧
    migrationGraphRun alwaysRunMaxOps specAgentRun constReviser
      AlwaysRunMax.initState (initialGraphState ("p0") 5 (3 / 4)) 25 =
      Except.ok (5, ⟨4, 1, "revised", [], 5, 3 / 4, true, some ("revised")⟩) ∧
    ∀ fuel : ℕ,
      migrationGraphRun alwaysRunMaxOps constHalfRate constReviser
        AlwaysRunMax.initState (initialGraphState ("p0") 2 (3 / 4)) fuel =
        Except.error ("GraphRecursionError") := by
  refine ⟨AlwaysRunMax.decision_iff, ?_, ?_, ?_⟩
  · norm_num [AlwaysRunMax.run, AlwaysRunMax.shouldContinue, AlwaysRunMax.initState,
      AlwaysRunMax.getBestResult, exhaustiveCalls, mkCall, historyEntry, List.foldl,
      historyBest, bestScan]
  · norm_num [migrationGraphRun, checkConvergence, alwaysRunMaxOps,
      AlwaysRunMax.shouldContinue, AlwaysRunMax.initState, AlwaysRunMax.getBestResult,
      historyBest, bestScan, specAgentRun, specRateAt, constReviser, initialGraphState,
      callOf, afterTest, applyUpdate, historyEntry]
  · intro fuel
    exact migrationGraphRun_stuck_below_threshold fuel AlwaysRunMax.initState
      (initialGraphState ("p0") 2 (3 / 4)) rfl
      (by intro x hx; simp [AlwaysRunMax.initState] at hx)

/-- C6: When the strategy (any of the three) answers stop,
`checkConvergence` builds the returned migration outcome from the
best-scoring historical entry — its prompt, success rate and iteration —
with `converged` true exactly when that best rate is at least the
threshold; in the concrete regression run the stopping iteration scored
0.3 but the outcome reports iteration 1 with 0.9 and `converged = true`. -/
theorem C6_outcome_from_best :
    (∀ (s : AlwaysRunMaxState) (c : CallState),
      (AlwaysRunMax.shouldContinue s c).2.shouldContinue = false →
      ∃ e ∈ (AlwaysRunMax.shouldContinue s c).1.history,
        (∀ x ∈ (AlwaysRunMax.shouldContinue s c).1.history,
          x.successRate ≤ e.successRate) ∧
        checkConvergence alwaysRunMaxOps s c =
          ((AlwaysRunMax.shouldContinue s c).1,
            Except.ok ⟨decide (c.threshold ≤ e.successRate), some e.prompt,
              some e.successRate, some e.iteration⟩)) ∧
    (∀ (cfg : EarlyStoppingConfig) (s : EarlyStoppingState) (c : CallState),
      (EarlyStoppingWithPatience.shouldContinue cfg s c).2.shouldContinue = false →
      ∃ e ∈ (EarlyStoppingWithPatience.shouldContinue cfg s c).1.history,
        (∀ x ∈ (EarlyStoppingWithPatience.shouldContinue cfg s c).1.history,
          x.successRate ≤ e.successRate) ∧
        checkConvergence (earlyStoppingOps cfg) s c =
          ((EarlyStoppingWithPatience.shouldContinue cfg s c).1,
            Except.ok ⟨decide (c.threshold ≤ e.successRate), some e.prompt,
              some e.successRate, some e.iteration⟩)) ∧
    (∀ (cfg : ThresholdPlusBonusConfig) (s : ThresholdPlusBonusState) (c : CallState),
      (ThresholdPlusBonus.shouldContinue cfg s c).2.shouldContinue = false →
      ∃ e ∈ (ThresholdPlusBonus.shouldContinue cfg s c).1.history,
        (∀ x ∈ (ThresholdPlusBonus.shouldContinue cfg s c).1.history,
          x.successRate ≤ e.successRate) ∧
        checkConvergence (thresholdPlusBonusOps cfg) s c =
          ((ThresholdPlusBonus.shouldContinue cfg s c).1,
            Except.ok ⟨decide (c.threshold ≤ e.successRate), some e.prompt,
              some e.successRate, some e.iteration⟩)) ∧
    (checkConvergence alwaysRunMaxOps
        (AlwaysRunMax.shouldContinue AlwaysRunMax.initState regressCallOne).1
        regressCallTwo).2 =
      Except.ok ⟨true, some ("good"), some (9 / 10), some 1⟩ := by
  refine ⟨?_, ?_, ?_, ?_⟩
  · intro s c hstop
    have hne : (AlwaysRunMax.shouldContinue s c).1.history ≠ [] := by
      rw [AlwaysRunMax.shouldContinue_fst]
      simp
    obtain ⟨e, pre, post, hbest, heq, hpre, hmax⟩ := historyBest_spec _ hne
    refine ⟨e, ?_, hmax, ?_⟩
    · rw [heq]
      exact List.mem_append_right pre (List.mem_cons_self e post)
    · exact checkConvergence_stop alwaysRunMaxOps s c hstop
        ⟨e.prompt, e.successRate, e.iteration⟩
        (by simp [alwaysRunMaxOps, AlwaysRunMax.getBestResult, hbest])
  · intro cfg s c hstop
    have hne : (EarlyStoppingWithPatience.shouldContinue cfg s c).1.history ≠ [] := by
      rw [EarlyStoppingWithPatience.shouldContinue_eq_stepState,
        EarlyStoppingWithPatience.stepState_eq]
      split_ifs <;> simp
    obtain ⟨e, pre, post, hbest, heq, hpre, hmax⟩ := historyBest_spec _ hne
    refine ⟨e, ?_, hmax, ?_⟩
    · rw [heq]
      exact List.mem_append_right pre (List.mem_cons_self e post)
    · exact checkConvergence_stop (earlyStoppingOps cfg) s c hstop
        ⟨e.prompt, e.successRate, e.iteration⟩
        (by simp [earlyStoppingOps, EarlyStoppingWithPatience.getBestResult, hbest])
  · intro cfg s c hstop
    have hne : (ThresholdPlusBonus.shouldContinue cfg s c).1.history ≠ [] := by
      rw [ThresholdPlusBonus.shouldContinue_eq_bonusStep, ThresholdPlusBonus.bonusStep_eq]
      split_ifs <;> simp
    obtain ⟨e, pre, post, hbest, heq, hpre, hmax⟩ := historyBest_spec _ hne
    refine ⟨e, ?_, hmax, ?_⟩
    · rw [heq]
      exact List.mem_append_right pre (List.mem_cons_self e post)
    · exact checkConvergence_stop (thresholdPlusBonusOps cfg) s c hstop
        ⟨e.prompt, e.successRate, e.iteration⟩
        (by simp [thresholdPlusBonusOps, ThresholdPlusBonus.getBestResult, hbest])
  · norm_num [checkConvergence, alwaysRunMaxOps, AlwaysRunMax.shouldContinue,
      AlwaysRunMax.initState, AlwaysRunMax.getBestResult, historyBest, bestScan,
      regressCallOne, regressCallTwo, mkCall, historyEntry]

/-- C7 counterexample: a single rejected case execution makes `testNode`
reject as a whole — no verdict list (in particular no failed verdict for
the failing case plus verdicts for the rest) is produced. -/
theorem C7_counterexample :
    testNode failOnFirstExecute passingJudgeCall twoCaseState =
      Except.error ("rate limit") ∧
    ∀ u, testNode failOnFirstExecute passingJudgeCall twoCaseState ≠ Except.ok u := by
  constructor
  · rfl
  · intro u h
    rw [show testNode failOnFirstExecute passingJudgeCall twoCaseState =
      Except.error ("rate limit") from rfl] at h
    exact Except.noConfusion h

/-- C7 (amended): a failure of candidate execution or of scoring for a
single case is not absorbed into a failed verdict for that case — it
propagates as an error that aborts the whole iteration (the Judge wrapping
scoring failures as judge-evaluation failures), and a verdict list exists
only when every case executed successfully. -/
theorem C7_case_failure_aborts_iteration :
    (∀ (execute : String → TestCase → Except String String)
      (judgeCall : TestCase → String → Except String EvaluationResult)
      (st : TestNodeState) (tc : TestCase) (e : String),
      tc ∈ st.testCases → execute st.currentPrompt tc = Except.error e →
      ∃ e', testNode execute judgeCall st = Except.error e') ∧
    (∀ (judgeCall : TestCase → String → Except String EvaluationResult)
      (tc : TestCase) (out gold e : String),
      tc.expectedResponse = some gold → judgeCall tc out = Except.error e →
      Judge.evaluate judgeCall tc out =
        Except.error ("Judge evaluation failed: " ++ e)) ∧
    (∀ (execute : String → TestCase → Except String String)
      (judgeCall : TestCase → String → Except String EvaluationResult)
      (st : TestNodeState) (outs : List (String × String)) (tc : TestCase)
      (e : String),
      collectResponses (execute st.currentPrompt) st.testCases = Except.ok outs →
      tc ∈ st.testCases →
      Judge.processTestCase judgeCall outs tc = Except.error e →
      ∃ e', testNode execute judgeCall st = Except.error e') ∧
    (∀ (execute : String → TestCase → Except String String)
      (judgeCall : TestCase → String → Except String EvaluationResult)
      (st : TestNodeState) (u : TestNodeUpdate),
      testNode execute judgeCall st = Except.ok u →
      ∀ tc ∈ st.testCases, ∃ r, execute st.currentPrompt tc = Except.ok r) := by
  refine ⟨?_, ?_, ?_, ?_⟩
  · intro execute judgeCall st tc e hmem hfail
    obtain ⟨e', he'⟩ := collectResponses_error_of_mem (execute st.currentPrompt)
      st.testCases tc e hmem hfail
    exact ⟨e', by simp [testNode, he']⟩
  · intro judgeCall tc out gold e hgold hfail
    exact evaluate_wraps_failure judgeCall tc out gold e hgold hfail
  · intro execute judgeCall st outs tc e houts hmem hfail
    obtain ⟨e', he'⟩ := evaluateBatch_error_of_mem judgeCall outs st.testCases tc e
      hmem hfail
    exact ⟨e', by simp [testNode, houts, he']⟩
  · intro execute judgeCall st u hok tc hmem
    cases houts : collectResponses (execute st.currentPrompt) st.testCases with
    | error e => simp [testNode, houts] at hok
    | ok outs =>
      exact collectResponses_ok_forall (execute st.currentPrompt)
        st.testCases outs houts tc hmem

/-- C8: If every case in an iteration fails to execute (and there is at
least one case), `testNode` — and with it the migration run — terminates
with an error; it never returns a well-formed update for that iteration. -/
theorem C8_all_fail_is_fatal (execute : String → TestCase → Except String String)
    (judgeCall : TestCase → String → Except String EvaluationResult)
    (st : TestNodeState) (hne : st.testCases ≠ [])
    (hfail : ∀ tc ∈ st.testCases, ∃ e, execute st.currentPrompt tc = Except.error e) :
    (∃ e', testNode execute judgeCall st = Except.error e') ∧
    ∀ u, testNode execute judgeCall st ≠ Except.ok u := by
  have herr : ∃ e', testNode execute judgeCall st = Except.error e' := by
    cases hcs : st.testCases with
    | nil => exact absurd hcs hne
    | cons tc0 rest =>
      have hmem : tc0 ∈ st.testCases := by rw [hcs]; exact List.mem_cons_self tc0 rest
      obtain ⟨e, he⟩ := hfail tc0 hmem
      obtain ⟨e', he'⟩ := collectResponses_error_of_mem (execute st.currentPrompt)
        st.testCases tc0 e hmem he
      exact ⟨e', by simp [testNode, he']⟩
  refine ⟨herr, ?_⟩
  intro u h
  obtain ⟨e', he'⟩ := herr
  rw [he'] at h
  exact Except.noConfusion h

/-- C9: When the engine continues, the reviser is handed exactly the
verdicts with `passed = false`, and the reviser prompt built from them
depends on a failing verdict only through its abstraction — question-type
label, output lengths, and issue and suggestion tags — so the verbatim
test input and output text cannot appear in (or influence) the prompt. -/
theorem C9_reviser_gets_abstracted_failures :
    (∀ (testResults : List TestResult) (r : TestResult),
      r ∈ modifyNodeFailed testResults ↔ r ∈ testResults ∧ r.passed = false) ∧
    (∀ (currentPrompt modelName : String) (ts1 ts2 : List TestResult),
      ts1.map abstractionOf = ts2.map abstractionOf →
      buildModifierPrompt currentPrompt ts1 modelName =
        buildModifierPrompt currentPrompt ts2 modelName) := by
  constructor
  · intro testResults r
    simp [modifyNodeFailed]
  · intro currentPrompt modelName ts1 ts2 h
    have hlen : ts1.length = ts2.length := by
      have := congrArg List.length h
      simpa using this
    have henum : ∀ l : List TestResult, l.enum = List.enumFrom 0 l := fun l => rfl
    unfold buildModifierPrompt
    rw [hlen, henum ts1, henum ts2, enumFrom_block_congr ts1 ts2 h 0]

/-- C10: Each strategy appends exactly one entry to its history per
`shouldContinue` call, so after at least one call the history is
non-empty and `getBestResult` returns (the projection of) one of the
recorded entries; on an empty history, however, the unseeded reduce throws
(modelled as `none`) for all three policies. -/
theorem C10_best_result_empty_throws :
    (∀ s : AlwaysRunMaxState, s.history = [] → AlwaysRunMax.getBestResult s = none) ∧
    (∀ s : EarlyStoppingState, s.history = [] →
      EarlyStoppingWithPatience.getBestResult s = none) ∧
    (∀ s : ThresholdPlusBonusState, s.history = [] →
      ThresholdPlusBonus.getBestResult s = none) ∧
    (∀ h : List IterationHistory, h ≠ [] → ∃ e ∈ h,
      (∀ s : AlwaysRunMaxState, s.history = h →
        AlwaysRunMax.getBestResult s = some ⟨e.prompt, e.successRate, e.iteration⟩) ∧
      (∀ s : EarlyStoppingState, s.history = h →
        EarlyStoppingWithPatience.getBestResult s =
          some ⟨e.prompt, e.successRate, e.iteration⟩) ∧
      (∀ s : ThresholdPlusBonusState, s.history = h →
        ThresholdPlusBonus.getBestResult s =
          some ⟨e.prompt, e.successRate, e.iteration⟩)) ∧
    (∀ (s : AlwaysRunMaxState) (c : CallState),
      (AlwaysRunMax.shouldContinue s c).1.history = s.history ++ [historyEntry c]) ∧
    (∀ (cfg : EarlyStoppingConfig) (s : EarlyStoppingState) (c : CallState),
      (EarlyStoppingWithPatience.shouldContinue cfg s c).1.history =
        s.history ++ [historyEntry c]) ∧
    (∀ (cfg : ThresholdPlusBonusConfig) (s : ThresholdPlusBonusState) (c : CallState),
      (ThresholdPlusBonus.shouldContinue cfg s c).1.history =
        s.history ++ [historyEntry c]) := by
  refine ⟨?_, ?_, ?_, ?_, ?_, ?_, ?_⟩
  · intro s hs
    simp [AlwaysRunMax.getBestResult, hs, historyBest]
  · intro s hs
    simp [EarlyStoppingWithPatience.getBestResult, hs, historyBest]
  · intro s hs
    simp [ThresholdPlusBonus.getBestResult, hs, historyBest]
  · intro h hne
    obtain ⟨e, pre, post, hbest, heq, hpre, hmax⟩ := historyBest_spec h hne
    refine ⟨e, ?_, ?_, ?_, ?_⟩
    · rw [heq]
      exact List.mem_append_right pre (List.mem_cons_self e post)
    · intro s hs
      simp [AlwaysRunMax.getBestResult, hs, hbest]
    · intro s hs
      simp [EarlyStoppingWithPatience.getBestResult, hs, hbest]
    · intro s hs
      simp [ThresholdPlusBonus.getBestResult, hs, hbest]
  · intro s c
    rw [AlwaysRunMax.shouldContinue_fst]
  · intro cfg s c
    rw [EarlyStoppingWithPatience.shouldContinue_eq_stepState,
      EarlyStoppingWithPatience.stepState_eq]
    split_ifs <;> rfl
  · intro cfg s c
    rw [ThresholdPlusBonus.shouldContinue_eq_bonusStep, ThresholdPlusBonus.bonusStep_eq]
    split_ifs <;> rfl

/-! ### Witnesses -/

/-- Witness for C1: a call at iteration 3 of budget 3 with any history. -/
theorem C1_budget_invariant_witness :
    (1 : ℤ) ≤ (mkCall 3 (1 / 2) ("w") 3 (3 / 4)).maxIterations ∧
    (mkCall 3 (1 / 2) ("w") 3 (3 / 4)).maxIterations ≤
      (mkCall 3 (1 / 2) ("w") 3 (3 / 4)).iteration ∧
    (AlwaysRunMax.shouldContinue ⟨[]⟩
      (mkCall 3 (1 / 2) ("w") 3 (3 / 4))).2.shouldContinue = false :=
  ⟨by decide, by decide,
    (C1_budget_invariant (mkCall 3 (1 / 2) ("w") 3 (3 / 4)) (by decide) (by decide)).1
      ⟨[]⟩⟩

/-- Witness for C2: the history 0.5, 0.9, 0.6. -/
theorem C2_best_result_max_earliest_witness :
    sampleHistory ≠ [] ∧
    sampleHistory.Pairwise (fun x y => x.iteration < y.iteration) ∧
    ∃ e ∈ sampleHistory,
      (∀ s : AlwaysRunMaxState, s.history = sampleHistory →
        AlwaysRunMax.getBestResult s = some ⟨e.prompt, e.successRate, e.iteration⟩) ∧
      (∀ s : EarlyStoppingState, s.history = sampleHistory →
        EarlyStoppingWithPatience.getBestResult s =
          some ⟨e.prompt, e.successRate, e.iteration⟩) ∧
      (∀ s : ThresholdPlusBonusState, s.history = sampleHistory →
        ThresholdPlusBonus.getBestResult s =
          some ⟨e.prompt, e.successRate, e.iteration⟩) ∧
      (∀ x ∈ sampleHistory, x.successRate ≤ e.successRate) ∧
      (∀ x ∈ sampleHistory, x.successRate = e.successRate →
        e.iteration ≤ x.iteration) :=
  ⟨by simp [sampleHistory], by decide,
    C2_best_result_max_earliest sampleHistory (by simp [sampleHistory]) (by decide)⟩

/-- Witness for C3: the grant computed on the first threshold hit of the
spec scenario, at iteration 4 of budget 5. -/
theorem C3_bonus_grant_and_cap_witness :
    ThresholdPlusBonus.initState.thresholdReachedAt = none ∧
    (mkCall 4 (3 / 4) ("q4") 5 (3 / 4)).threshold ≤
      (mkCall 4 (3 / 4) ("q4") 5 (3 / 4)).successRate ∧
    ((ThresholdPlusBonus.shouldContinue ⟨2⟩ ThresholdPlusBonus.initState
        (mkCall 4 (3 / 4) ("q4") 5 (3 / 4))).1.thresholdReachedAt =
        some (mkCall 4 (3 / 4) ("q4") 5 (3 / 4)).iteration ∧
      (ThresholdPlusBonus.shouldContinue ⟨2⟩ ThresholdPlusBonus.initState
        (mkCall 4 (3 / 4) ("q4") 5 (3 / 4))).1.bonusRoundsAvailable =
        min (2 : ℤ) ((mkCall 4 (3 / 4) ("q4") 5 (3 / 4)).maxIterations -
          (mkCall 4 (3 / 4) ("q4") 5 (3 / 4)).iteration) ∧
      ((ThresholdPlusBonus.shouldContinue ⟨2⟩ ThresholdPlusBonus.initState
        (mkCall 4 (3 / 4) ("q4") 5 (3 / 4))).2.shouldContinue = true ↔
        0 < min (2 : ℤ) ((mkCall 4 (3 / 4) ("q4") 5 (3 / 4)).maxIterations -
          (mkCall 4 (3 / 4) ("q4") 5 (3 / 4)).iteration))) :=
  ⟨rfl, by norm_num [mkCall],
    C3_bonus_grant_and_cap.1 ⟨2⟩ ThresholdPlusBonus.initState
      (mkCall 4 (3 / 4) ("q4") 5 (3 / 4)) rfl (by norm_num [mkCall])⟩

/-- Witness for C4: the resetting first call of the spec scenario. -/
theorem C4_patience_semantics_witness :
    patienceCfg.minImprovement ≤
      (mkCall 1 (1 / 2) ("r1") 5 (3 / 4)).successRate -
        (EarlyStoppingWithPatience.initState patienceCfg).bestSuccessRate ∧
    (EarlyStoppingWithPatience.shouldContinue patienceCfg
        (EarlyStoppingWithPatience.initState patienceCfg)
        (mkCall 1 (1 / 2) ("r1") 5 (3 / 4))).1 =
      ⟨(EarlyStoppingWithPatience.initState patienceCfg).history ++
          [historyEntry (mkCall 1 (1 / 2) ("r1") 5 (3 / 4))],
        (mkCall 1 (1 / 2) ("r1") 5 (3 / 4)).successRate, patienceCfg.patience⟩ :=
  ⟨by norm_num [patienceCfg, mkCall, EarlyStoppingWithPatience.initState],
    (C4_patience_semantics.2.1 patienceCfg
      (EarlyStoppingWithPatience.initState patienceCfg)
      (mkCall 1 (1 / 2) ("r1") 5 (3 / 4))).1
      (by norm_num [patienceCfg, mkCall, EarlyStoppingWithPatience.initState])⟩

/-- Witness for C6: a stop decision at iteration 2 of budget 2, starting
from an empty exhaustive-strategy history. -/
theorem C6_outcome_from_best_witness :
    (AlwaysRunMax.shouldContinue ⟨[]⟩ regressCallTwo).2.shouldContinue = false ∧
    ∃ e ∈ (AlwaysRunMax.shouldContinue ⟨[]⟩ regressCallTwo).1.history,
      (∀ x ∈ (AlwaysRunMax.shouldContinue ⟨[]⟩ regressCallTwo).1.history,
        x.successRate ≤ e.successRate) ∧
      checkConvergence alwaysRunMaxOps ⟨[]⟩ regressCallTwo =
        ((AlwaysRunMax.shouldContinue ⟨[]⟩ regressCallTwo).1,
          Except.ok ⟨decide (regressCallTwo.threshold ≤ e.successRate),
            some e.prompt, some e.successRate, some e.iteration⟩) :=
  ⟨by decide, C6_outcome_from_best.1 ⟨[]⟩ regressCallTwo (by decide)⟩

/-- Witness for C7 (amended): the first case of the two-case fixture is
rejected, and `testNode` errors. -/
theorem C7_case_failure_aborts_iteration_witness :
    caseOne ∈ twoCaseState.testCases ∧
    failOnFirstExecute twoCaseState.currentPrompt caseOne =
      Except.error ("rate limit") ∧
    ∃ e', testNode failOnFirstExecute passingJudgeCall twoCaseState =
      Except.error e' :=
  ⟨by simp [twoCaseState], rfl,
    C7_case_failure_aborts_iteration.1 failOnFirstExecute passingJudgeCall
      twoCaseState caseOne ("rate limit") (by simp [twoCaseState]) rfl⟩

/-- Witness for C8: both cases of the two-case fixture fail to execute. -/
theorem C8_all_fail_is_fatal_witness :
    twoCaseState.testCases ≠ [] ∧
    (∀ tc ∈ twoCaseState.testCases, ∃ e,
      failAllExecute twoCaseState.currentPrompt tc = Except.error e) ∧
    ((∃ e', testNode failAllExecute passingJudgeCall twoCaseState =
        Except.error e') ∧
      ∀ u, testNode failAllExecute passingJudgeCall twoCaseState ≠ Except.ok u) :=
  ⟨by simp [twoCaseState], fun tc _ => ⟨"network down", rfl⟩,
    C8_all_fail_is_fatal failAllExecute passingJudgeCall twoCaseState
      (by simp [twoCaseState]) (fun tc _ => ⟨"network down", rfl⟩)⟩

/-- Witness for C9: two distinct verdicts with different verbatim text but
equal abstractions produce the same reviser prompt. -/
theorem C9_reviser_gets_abstracted_failures_witness :
    verdictA ≠ verdictB ∧
    [verdictA].map abstractionOf = [verdictB].map abstractionOf ∧
    buildModifierPrompt ("Answer the question.") [verdictA] ("gpt-4o-mini") =
      buildModifierPrompt ("Answer the question.") [verdictB] ("gpt-4o-mini") :=
  ⟨by decide, by rfl,
    C9_reviser_gets_abstracted_failures.2 ("Answer the question.") ("gpt-4o-mini")
      [verdictA] [verdictB] (by rfl)⟩

/-- Witness for C10: the empty history yields `none`; the sample history
yields one of its entries. -/
theorem C10_best_result_empty_throws_witness :
    AlwaysRunMax.getBestResult ⟨[]⟩ = none ∧
    sampleHistory ≠ [] ∧
    ∃ e ∈ sampleHistory,
      (∀ s : AlwaysRunMaxState, s.history = sampleHistory →
        AlwaysRunMax.getBestResult s = some ⟨e.prompt, e.successRate, e.iteration⟩) ∧
      (∀ s : EarlyStoppingState, s.history = sampleHistory →
        EarlyStoppingWithPatience.getBestResult s =
          some ⟨e.prompt, e.successRate, e.iteration⟩) ∧
      (∀ s : ThresholdPlusBonusState, s.history = sampleHistory →
        ThresholdPlusBonus.getBestResult s =
          some ⟨e.prompt, e.successRate, e.iteration⟩) :=
  ⟨C10_best_result_empty_throws.1 ⟨[]⟩ rfl, by simp [sampleHistory],
    C10_best_result_empty_throws.2.2.2.1 sampleHistory (by simp [sampleHistory])⟩

end Distill
